import Mathlib

/-!
# Verification of the Games-Detector appinfo decoder and filename sanitizer

Shallow embedding of `read_appinfo` and `get_valid_file_name` from
`steam_detector.py` (the `get_valid_file_name` copies in `epic_detector.py`
and `gog_detector.py` are byte-for-byte identical to the one modelled here).

A file is modelled as a `List Nat` of byte values; the Python file object's
read position is threaded explicitly.  Python exceptions are modelled by an
error result: the magic-signature check raises `SyntaxError` (modelled as
`PyErr.invalidMagic`) and every failing `struct.unpack` raises `struct.error`
(modelled as `PyErr.unpackError`).  The byte-scanning loops in the field
extraction can fail to terminate in Python (scanning for a zero byte that is
not there walks past the end of the bytes object forever, because an
out-of-range slice yields the empty bytes object, which is never equal to
`b"\x00"`); this genuine divergence is modelled by the `DecodeResult.hang`
outcome.  The `bytes.decode` calls on the extracted name and icon bytes
(lines 88 and 103 of the source) raise `UnicodeDecodeError` on invalid
UTF-8 and abort the whole decode; this is modelled by `validUtf8` checks in
`readRecordStep` and the `PyErr.unicodeError` outcome.
-/

/-- A byte buffer: the contents of the file, one `Nat` per byte. -/
abbrev Buf := List Nat

/-- Little-endian value of a byte list (`struct.unpack('<I', ...)` /
`struct.unpack('<Q', ...)` once the length has been checked). -/
def leVal (bs : List Nat) : Nat :=
  bs.foldr (fun b acc => b + 256 * acc) 0

/-- `f.read(n)` for `n ≥ 0`: returns up to `n` bytes starting at `pos` and
the new position (old position plus the number of bytes actually read). -/
def readN (buf : Buf) (pos n : Nat) : List Nat × Nat :=
  let bs := (buf.drop pos).take n
  (bs, pos + bs.length)

/-- `int32.unpack(f.read(4))[0]`: succeeds exactly when 4 bytes are
available; a short read makes `struct.unpack` raise (`none`). -/
def readU32 (buf : Buf) (pos : Nat) : Option (Nat × Nat) :=
  if pos + 4 ≤ buf.length then some (leVal ((buf.drop pos).take 4), pos + 4) else none

/-- `int64.unpack(f.read(8))[0]`: succeeds exactly when 8 bytes are
available. -/
def readU64 (buf : Buf) (pos : Nat) : Option (Nat × Nat) :=
  if pos + 8 ≤ buf.length then some (leVal ((buf.drop pos).take 8), pos + 8) else none

/-- `f.read(end - f.tell())`: the argument is a Python `int` that may be
negative; `file.read` with a negative size reads all remaining bytes. -/
def readPayload (buf : Buf) (pos endPos : Nat) : List Nat × Nat :=
  if endPos < pos then
    (buf.drop pos, pos + (buf.drop pos).length)
  else
    readN buf pos (endPos - pos)

/-- The fixed magic signature `b")DV\x07"`. -/
def magicBytes : List Nat := [41, 68, 86, 7]

/-- `needle.isPrefixOf hay` written out for byte lists. -/
def leadsWith : List Nat → List Nat → Bool
  | [], _ => true
  | _ :: _, [] => false
  | a :: as, b :: bs => a == b && leadsWith as bs

/-- Index of the first occurrence of `needle` in `hay`
(`hay.index(needle)` guarded by `needle in hay`; `none` when absent). -/
def findSub (needle : List Nat) : List Nat → Option Nat
  | [] => if leadsWith needle [] then some 0 else none
  | b :: rest =>
    if leadsWith needle (b :: rest) then some 0
    else (findSub needle rest).map (· + 1)

/-- The Python loop `while content[index:index+1] != b"\x00": ... index += 1`
started at index `i`: if a zero byte occurs at or after `i`, it returns the
bytes strictly before the first such zero; otherwise the Python loop never
terminates (an out-of-range slice is `b""`, which is not `b"\x00"`), which is
modelled by `none`. -/
def scanZero (content : List Nat) (i : Nat) : Option (List Nat) :=
  if 0 ∈ content.drop i then some ((content.drop i).takeWhile (· ≠ 0)) else none

/-- Separator preceding the game name: `b"\x01\x04\x00\x00\x00"`. -/
def nameMarker : List Nat := [1, 4, 0, 0, 0]

/-- Separator preceding the item type: `b"\x01\x05\x00\x00\x00"`. -/
def typeMarker : List Nat := [1, 5, 0, 0, 0]

/-- Separator preceding the icon hash: `b"\x01X\x01\x00\x00"`. -/
def iconMarker : List Nat := [1, 88, 1, 0, 0]

/-- The byte strings the code accepts as item types, in source order:
`[b"Game", b"DLC", b"Demo", b"Config", b"Beta", b"Tool", b"ownersonly",
b"Application"]` (ASCII values; note the lowercase `ownersonly`). -/
def typeTags : List (List Nat) :=
  [[71, 97, 109, 101],
   [68, 76, 67],
   [68, 101, 109, 111],
   [67, 111, 110, 102, 105, 103],
   [66, 101, 116, 97],
   [84, 111, 111, 108],
   [111, 119, 110, 101, 114, 115, 111, 110, 108, 121],
   [65, 112, 112, 108, 105, 99, 97, 116, 105, 111, 110]]

/-- Name extraction on a record's `binary_content`: `some none` when the
marker is absent (field stays `None`), `some (some v)` when the marker is
found and the scan reaches a zero byte, `none` when the Python scan loop
diverges. -/
def extractName (content : List Nat) : Option (Option (List Nat)) :=
  match findSub nameMarker content with
  | none => some none
  | some idx =>
    match scanZero content (idx + 5) with
    | none => none
    | some v => some (some v)

/-- Item-type extraction: as `extractName`, but the scanned value is kept
only when it is one of the `typeTags`. -/
def extractType (content : List Nat) : Option (Option (List Nat)) :=
  match findSub typeMarker content with
  | none => some none
  | some idx =>
    match scanZero content (idx + 5) with
    | none => none
    | some v => some (if v ∈ typeTags then some v else none)

/-- Icon-hash extraction: the 40 bytes (fewer when the payload ends sooner)
immediately after the first marker occurrence; no terminator scan, so no
divergence is possible. -/
def extractIcon (content : List Nat) : Option (List Nat) :=
  match findSub iconMarker content with
  | none => none
  | some idx => some ((content.drop (idx + 5)).take 40)

/-- The per-record fields obtained by the `f.read` calls of the loop body
(everything between reading `size` and finishing `binary_content`). -/
structure RawFrame where
  size : Nat
  info_state : Nat
  last_updated : Nat
  picsToken : Nat
  sha1Text : List Nat
  change_number : Nat
  sha1Binary : List Nat
  binary_content : List Nat
deriving DecidableEq, Repr

/-- The reads of one loop iteration after `appid`: `size`, the fixed
metadata fields, and the `binary_content` bounded by
`end = f.tell() + size` (tell taken right after the `size` read).  `none`
models a `struct.error` from a short `unpack` read; the 20-byte `f.read`
calls and the payload read never raise. -/
def readRecordFrame (buf : Buf) (pos : Nat) : Option (RawFrame × Nat) :=
  match readU32 buf pos with
  | none => none
  | some (size, p1) =>
  match readU32 buf p1 with
  | none => none
  | some (info_state, p2) =>
  match readU32 buf p2 with
  | none => none
  | some (last_updated, p3) =>
  match readU64 buf p3 with
  | none => none
  | some (picsToken, p4) =>
  match readN buf p4 20 with
  | (sha1Text, p5) =>
  match readU32 buf p5 with
  | none => none
  | some (change_number, p6) =>
  match readN buf p6 20 with
  | (sha1Binary, p7) =>
  match readPayload buf p7 (p1 + size) with
  | (binary_content, p8) =>
    some (⟨size, info_state, last_updated, picsToken, sha1Text,
           change_number, sha1Binary, binary_content⟩, p8)

/-- One decoded `app` dict. `name`, `type`, `icon_hash` are `None` when the
corresponding extraction found nothing. -/
structure AppRecord where
  appid : Nat
  info_state : Nat
  last_updated : Nat
  picsToken : Nat
  sha1Text : List Nat
  change_number : Nat
  sha1Binary : List Nat
  name : Option (List Nat)
  type : Option (List Nat)
  icon_hash : Option (List Nat)
  binary_content : List Nat
deriving DecidableEq, Repr

/-- A UTF-8 continuation byte (`0x80`–`0xBF`). -/
def isCont (b : Nat) : Bool := 128 ≤ b && b ≤ 191

/-- Strict UTF-8 validity of a byte string, exactly as Python's
`bytes.decode()` (default `'utf-8'`, `'strict'`) accepts it: the RFC 3629
table, which excludes overlong encodings (start bytes `0xC0`/`0xC1`, and
the restricted ranges after `0xE0`/`0xF0`), surrogates (restricted range
after `0xED`), code points above `U+10FFFF` (restricted range after `0xF4`,
start bytes `0xF5`–`0xFF`), bare continuation bytes, and truncated
sequences.  `bytes.decode` raises `UnicodeDecodeError` on anything else. -/
def validUtf8 : List Nat → Bool
  | [] => true
  | b :: rest =>
    if b ≤ 127 then validUtf8 rest
    else if 194 ≤ b && b ≤ 223 then
      match rest with
      | c1 :: r => isCont c1 && validUtf8 r
      | [] => false
    else if b = 224 then
      match rest with
      | c1 :: c2 :: r => (160 ≤ c1 && c1 ≤ 191) && isCont c2 && validUtf8 r
      | _ => false
    else if (225 ≤ b && b ≤ 236) || 238 ≤ b && b ≤ 239 then
      match rest with
      | c1 :: c2 :: r => isCont c1 && isCont c2 && validUtf8 r
      | _ => false
    else if b = 237 then
      match rest with
      | c1 :: c2 :: r => (128 ≤ c1 && c1 ≤ 159) && isCont c2 && validUtf8 r
      | _ => false
    else if b = 240 then
      match rest with
      | c1 :: c2 :: c3 :: r =>
        (144 ≤ c1 && c1 ≤ 191) && isCont c2 && isCont c3 && validUtf8 r
      | _ => false
    else if 241 ≤ b && b ≤ 243 then
      match rest with
      | c1 :: c2 :: c3 :: r => isCont c1 && isCont c2 && isCont c3 && validUtf8 r
      | _ => false
    else if b = 244 then
      match rest with
      | c1 :: c2 :: c3 :: r =>
        (128 ≤ c1 && c1 ≤ 143) && isCont c2 && isCont c3 && validUtf8 r
      | _ => false
    else false

/-- Whether the `bytes.decode` call on an optional extracted value goes
through: when the marker was absent the field stays `None` and `decode` is
never called; when it was found, `decode` succeeds iff the bytes are valid
UTF-8. -/
def decodes : Option (List Nat) → Bool
  | none => true
  | some v => validUtf8 v

/-- Result of processing one record after its `appid` was read:
a short unpack read, a diverging marker scan, a `UnicodeDecodeError` from
`bytes.decode`, or the decoded record and the position after it. -/
inductive StepResult where
  | fail : StepResult
  | hangs : StepResult
  | decodeFail : StepResult
  | record : AppRecord → Nat → StepResult
deriving DecidableEq, Repr

/-- One full loop-body step for a record with the given `appid`, starting at
the position of its `size` field: read the frame, then run the three field
extractions on `binary_content` in source order.  The name scan may
diverge; if it terminates, `bytes.decode(name)` (line 88) raises
`UnicodeDecodeError` on invalid UTF-8 before the type scan runs.  The type
scan may diverge, but its own `bytes.decode` (line 98) is guarded by
membership in the all-ASCII tag list and can never raise.  Finally the icon
slice is decoded (line 103), which again raises on invalid UTF-8. -/
def readRecordStep (buf : Buf) (pos appid : Nat) : StepResult :=
  match readRecordFrame buf pos with
  | none => .fail
  | some (fr, p') =>
    match extractName fr.binary_content with
    | none => .hangs
    | some nm =>
      if decodes nm then
        match extractType fr.binary_content with
        | none => .hangs
        | some ty =>
          if decodes (extractIcon fr.binary_content) then
            .record ⟨appid, fr.info_state, fr.last_updated, fr.picsToken,
                     fr.sha1Text, fr.change_number, fr.sha1Binary, nm, ty,
                     extractIcon fr.binary_content, fr.binary_content⟩ p'
          else .decodeFail
      else .decodeFail

/-- The exception classes `read_appinfo` can raise: `SyntaxError` on a
magic mismatch, `struct.error` on any short unpack read, and
`UnicodeDecodeError` when `bytes.decode` is applied to invalid UTF-8. -/
inductive PyErr where
  | invalidMagic : PyErr
  | unpackError : PyErr
  | unicodeError : PyErr
deriving DecidableEq, Repr

/-- The insertion-ordered dict `return_dict`. -/
abbrev Store := List (Nat × AppRecord)

/-- Python dict assignment `d[k] = v`: replaces the existing binding in
place, otherwise appends. -/
def dinsert (s : Store) (k : Nat) (v : AppRecord) : Store :=
  match s with
  | [] => [(k, v)]
  | (k', v') :: rest => if k' = k then (k, v) :: rest else (k', v') :: dinsert rest k v

/-- Python dict lookup `d[k]` (as an option). -/
def dlookup (s : Store) (k : Nat) : Option AppRecord :=
  match s with
  | [] => none
  | (k', v') :: rest => if k' = k then some v' else dlookup rest k

/-- Insert a list of bindings left to right. -/
def dinsertAll (s : Store) (ps : List (Nat × AppRecord)) : Store :=
  ps.foldl (fun acc p => dinsert acc p.1 p.2) s

/-- The last binding of `k` in a list of pairs, if any. -/
def lastAssoc (ps : List (Nat × AppRecord)) (k : Nat) : Option AppRecord :=
  match ps with
  | [] => none
  | (k', v) :: rest =>
    match lastAssoc rest k with
    | some w => some w
    | none => if k' = k then some v else none

/-- Outcome of a decode: the returned dict, a raised exception, or
divergence of a byte-scanning loop.  `out` is a fuel artifact that is never
actually produced (see `read_appinfo_ne_out`). -/
inductive DecodeResult where
  | ok : Store → DecodeResult
  | err : PyErr → DecodeResult
  | hang : DecodeResult
  | out : DecodeResult
deriving DecidableEq, Repr

/-- The `while True` record loop, with fuel making the recursion structural:
read `appid`, stop with the accumulated dict on the sentinel 0, otherwise
process the record and insert it under its `appid`. -/
def decodeLoopF : Nat → Buf → Nat → Store → DecodeResult
  | 0, _, _, _ => .out
  | fuel + 1, buf, pos, acc =>
    match readU32 buf pos with
    | none => .err .unpackError
    | some (appid, p1) =>
      if appid = 0 then .ok acc
      else
        match readRecordStep buf p1 appid with
        | .fail => .err .unpackError
        | .hangs => .hang
        | .decodeFail => .err .unicodeError
        | .record r p2 => decodeLoopF fuel buf p2 (dinsert acc appid r)

/-- `read_appinfo`, on the bytes of the file: check the magic, read
`universe` and `string_table_offset`, seek to
`previous_offset + string_table_offset` and read the 4-byte `string_count`
there, seek back, then run the record loop.  The fuel `buf.length + 1`
always suffices (`decodeLoopF_ne_out`). -/
def read_appinfo (buf : Buf) : DecodeResult :=
  match readN buf 0 4 with
  | (magic, p0) =>
  if magic ≠ magicBytes then .err .invalidMagic
  else
    match readU32 buf p0 with
    | none => .err .unpackError
    | some (_universe, p1) =>
      match readU64 buf p1 with
      | none => .err .unpackError
      | some (string_table_offset, previous_offset) =>
        match readU32 buf (previous_offset + string_table_offset) with
        | none => .err .unpackError
        | some (_string_count, _) =>
          decodeLoopF (buf.length + 1) buf previous_offset []

/-- The `string_table_offset` field of a buffer: little-endian value of
bytes 8..16. -/
def stoOf (buf : Buf) : Nat := leVal ((buf.drop 8).take 8)

/-! ## `get_valid_file_name` (identical in all three detector files) -/

/-- `forbidden_chars` from the source. -/
def forbidden_chars : List Char := ['/', '\\', ':', '*', '?', '"', '<', '>', '|']

/-- `filename.replace(char, " ")` guarded by `if char in filename`
(single-character replacement is a pointwise map). -/
def replaceForbidden (s : List Char) (c : Char) : List Char :=
  if c ∈ s then s.map (fun x => if x = c then ' ' else x) else s

/-- `while filename.startswith(" "): filename = filename.removeprefix(" ")`. -/
def stripLeadingSpaces : List Char → List Char
  | [] => []
  | c :: rest => if c = ' ' then stripLeadingSpaces rest else c :: rest

/-- `while filename.endswith(" "): filename = filename.removesuffix(" ")`,
expressed through reversal. -/
def stripTrailingSpaces (s : List Char) : List Char :=
  (stripLeadingSpaces s.reverse).reverse

/-- `get_valid_file_name`: replace each forbidden character by a space, then
strip leading and trailing spaces. -/
def get_valid_file_name (s : List Char) : List Char :=
  stripTrailingSpaces (stripLeadingSpaces (forbidden_chars.foldl replaceForbidden s))

/-! ## Spec-side definition used for the refinement claim about item types -/

/-- The closed tag set as the spec writes it:
{Game, DLC, Demo, Config, Beta, Tool, OwnersOnly, Application} (ASCII bytes;
`OwnersOnly` spelled with capital letters as in the spec). -/
def specTypeTags : List (List Nat) :=
  [[71, 97, 109, 101],
   [68, 76, 67],
   [68, 101, 109, 111],
   [67, 111, 110, 102, 105, 103],
   [66, 101, 116, 97],
   [84, 111, 111, 108],
   [79, 119, 110, 101, 114, 115, 79, 110, 108, 121],
   [65, 112, 112, 108, 105, 99, 97, 116, 105, 111, 110]]

/-! ## Helper lemmas about the byte-cursor primitives -/

theorem readU32_eq_some {buf : Buf} {pos v q : Nat}
    (h : readU32 buf pos = some (v, q)) : q = pos + 4 ∧ pos + 4 ≤ buf.length := by
  unfold readU32 at h
  split at h
  · simp only [Option.some.injEq, Prod.mk.injEq] at h
    exact ⟨h.2.symm, by assumption⟩
  · exact absurd h (by simp)

theorem readU64_eq_some {buf : Buf} {pos v q : Nat}
    (h : readU64 buf pos = some (v, q)) : q = pos + 8 ∧ pos + 8 ≤ buf.length := by
  unfold readU64 at h
  split at h
  · simp only [Option.some.injEq, Prod.mk.injEq] at h
    exact ⟨h.2.symm, by assumption⟩
  · exact absurd h (by simp)

theorem readN_snd_ge {buf : Buf} {pos n : Nat} : pos ≤ (readN buf pos n).2 := by
  unfold readN
  simp

theorem readPayload_snd_ge {buf : Buf} {pos e : Nat} : pos ≤ (readPayload buf pos e).2 := by
  unfold readPayload
  split
  · simp
  · exact readN_snd_ge

theorem readRecordFrame_mono {buf : Buf} {pos : Nat} {fr : RawFrame} {p' : Nat}
    (h : readRecordFrame buf pos = some (fr, p')) : pos ≤ p' := by
  unfold readRecordFrame at h
  split at h
  · exact absurd h (by simp)
  next size p1 h1 =>
  split at h
  · exact absurd h (by simp)
  next info_state p2 h2 =>
  split at h
  · exact absurd h (by simp)
  next last_updated p3 h3 =>
  split at h
  · exact absurd h (by simp)
  next picsToken p4 h4 =>
  split at h
  next sha1Text p5 h5 =>
  split at h
  · exact absurd h (by simp)
  next change_number p6 h6 =>
  split at h
  next sha1Binary p7 h7 =>
  split at h
  next binary_content p8 h8 =>
  simp only [Option.some.injEq, Prod.mk.injEq] at h
  have e1 := (readU32_eq_some h1).1
  have e2 := (readU32_eq_some h2).1
  have e3 := (readU32_eq_some h3).1
  have e4 := (readU64_eq_some h4).1
  have e5 : p4 ≤ p5 := by
    have := @readN_snd_ge buf p4 20
    rw [h5] at this; exact this
  have e6 := (readU32_eq_some h6).1
  have e7 : p6 ≤ p7 := by
    have := @readN_snd_ge buf p6 20
    rw [h7] at this; exact this
  have e8 : p7 ≤ p8 := by
    have := @readPayload_snd_ge buf p7 (p1 + size)
    rw [h8] at this; exact this
  omega

theorem readRecordStep_mono {buf : Buf} {pos appid : Nat} {r : AppRecord} {p2 : Nat}
    (h : readRecordStep buf pos appid = .record r p2) : pos ≤ p2 := by
  unfold readRecordStep at h
  split at h
  · exact absurd h (by simp)
  next fr p' hfr =>
  split at h
  · exact absurd h (by simp)
  split at h
  · split at h
    · exact absurd h (by simp)
    · split at h
      · simp only [StepResult.record.injEq] at h
        exact h.2 ▸ readRecordFrame_mono hfr
      · exact absurd h (by simp)
  · exact absurd h (by simp)

theorem decodeLoopF_ne_out {buf : Buf} :
    ∀ fuel pos acc, buf.length - pos < fuel →
      decodeLoopF fuel buf pos acc ≠ .out := by
  intro fuel
  induction fuel with
  | zero => intro pos acc h; omega
  | succ n ih =>
    intro pos acc h
    unfold decodeLoopF
    split
    · simp
    next appid p1 h1 =>
    split
    · simp
    · split
      · simp
      · simp
      · simp
      next r p2 h2 =>
        have e1 := readU32_eq_some h1
        have e2 := readRecordStep_mono h2
        exact ih p2 (dinsert acc appid r) (by omega)

theorem read_appinfo_ne_out (buf : Buf) : read_appinfo buf ≠ .out := by
  unfold read_appinfo
  split
  next magic p0 hm =>
  split
  · simp
  · split
    · simp
    · split
      · simp
      · split
        · simp
        · exact decodeLoopF_ne_out _ _ _ (by omega)

/-- Buffer with one record whose name value is the single byte `0xFF`
(zero-terminated): `0xFF` is not valid UTF-8, so `bytes.decode(name)` at
line 88 raises `UnicodeDecodeError` and the decode aborts with no store. -/
def uniFailBuf : Buf :=
  magicBytes ++ [1, 0, 0, 0] ++ [0, 0, 0, 0, 0, 0, 0, 0] ++
  [184, 1, 0, 0] ++ [67, 0, 0, 0] ++ List.replicate 60 0 ++
  [1, 4, 0, 0, 0, 255, 0] ++ [0, 0, 0, 0]

/-- Model validation: the `UnicodeDecodeError` path is live — a
zero-terminated but non-UTF-8 name value makes the whole decode fail. -/
theorem read_appinfo_uniFailBuf : read_appinfo uniFailBuf = .err .unicodeError := by
  decide

theorem decodeLoopF_ne_invalidMagic {buf : Buf} :
    ∀ fuel pos acc, decodeLoopF fuel buf pos acc ≠ .err .invalidMagic := by
  intro fuel
  induction fuel with
  | zero => intro pos acc; simp [decodeLoopF]
  | succ n ih =>
    intro pos acc
    unfold decodeLoopF
    split
    · simp
    · split
      · simp
      · split
        · simp
        · simp
        · simp
        · exact ih _ _

theorem readU32_of_le (buf : Buf) (pos : Nat) (h : pos + 4 ≤ buf.length) :
    readU32 buf pos = some (leVal ((buf.drop pos).take 4), pos + 4) := by
  unfold readU32
  rw [if_pos h]

theorem readU64_of_le (buf : Buf) (pos : Nat) (h : pos + 8 ≤ buf.length) :
    readU64 buf pos = some (leVal ((buf.drop pos).take 8), pos + 8) := by
  unfold readU64
  rw [if_pos h]

theorem readN_of_le (buf : Buf) (pos n : Nat) (h : pos + n ≤ buf.length) :
    readN buf pos n = ((buf.drop pos).take n, pos + n) := by
  unfold readN
  simp only [Prod.mk.injEq, List.length_take, List.length_drop]
  exact ⟨trivial, by omega⟩

theorem readPayload_of_le (buf : Buf) (pos endPos : Nat)
    (h1 : pos ≤ endPos) (h2 : endPos ≤ buf.length) :
    readPayload buf pos endPos = ((buf.drop pos).take (endPos - pos), endPos) := by
  unfold readPayload
  rw [if_neg (by omega), readN_of_le buf pos (endPos - pos) (by omega)]
  simp only [Prod.mk.injEq]
  exact ⟨trivial, by omega⟩

theorem readRecordFrame_spec (buf : Buf) (pos size : Nat)
    (h1 : readU32 buf pos = some (size, pos + 4)) (h2 : 60 ≤ size)
    (h3 : pos + 4 + size ≤ buf.length) :
    readRecordFrame buf pos =
      some (⟨size,
             leVal ((buf.drop (pos + 4)).take 4),
             leVal ((buf.drop (pos + 8)).take 4),
             leVal ((buf.drop (pos + 12)).take 8),
             (buf.drop (pos + 20)).take 20,
             leVal ((buf.drop (pos + 40)).take 4),
             (buf.drop (pos + 44)).take 20,
             (buf.drop (pos + 64)).take (size - 60)⟩, pos + 4 + size) := by
  have q1 : pos + 4 + 4 = pos + 8 := by omega
  have q2 : pos + 8 + 4 = pos + 12 := by omega
  have q3 : pos + 12 + 8 = pos + 20 := by omega
  have q4 : pos + 20 + 20 = pos + 40 := by omega
  have q5 : pos + 40 + 4 = pos + 44 := by omega
  have q6 : pos + 44 + 20 = pos + 64 := by omega
  have q7 : pos + 4 + size - (pos + 64) = size - 60 := by omega
  unfold readRecordFrame
  simp only [h1, readU32_of_le buf (pos + 4) (by omega), q1,
             readU32_of_le buf (pos + 8) (by omega), q2,
             readU64_of_le buf (pos + 12) (by omega), q3,
             readN_of_le buf (pos + 20) 20 (by omega), q4,
             readU32_of_le buf (pos + 40) (by omega), q5,
             readN_of_le buf (pos + 44) 20 (by omega), q6,
             readPayload_of_le buf (pos + 64) (pos + 4 + size) (by omega) (by omega), q7]

/-! ## Dict (record store) lemmas -/

theorem dlookup_dinsert (s : Store) (k k' : Nat) (v : AppRecord) :
    dlookup (dinsert s k v) k' = if k = k' then some v else dlookup s k' := by
  induction s with
  | nil => simp [dinsert, dlookup]
  | cons p rest ih =>
    obtain ⟨a, b⟩ := p
    simp only [dinsert]
    split
    next hak =>
      subst hak
      simp only [dlookup]
      split_ifs <;> simp_all [dlookup]
    next hak =>
      simp only [dlookup, ih]
      split_ifs <;> simp_all

theorem dlookup_dinsertAll (ps : List (Nat × AppRecord)) :
    ∀ (s : Store) (k : Nat),
      dlookup (dinsertAll s ps) k =
        match lastAssoc ps k with
        | some v => some v
        | none => dlookup s k := by
  induction ps with
  | nil => intro s k; simp [dinsertAll, lastAssoc]
  | cons p rest ih =>
    intro s k
    obtain ⟨a, b⟩ := p
    show dlookup (dinsertAll (dinsert s a b) rest) k = _
    rw [ih (dinsert s a b) k]
    simp only [lastAssoc]
    cases h : lastAssoc rest k with
    | some w => simp
    | none =>
      simp only [dlookup_dinsert]
      split_ifs <;> simp_all

theorem lastAssoc_ne_none_iff (ps : List (Nat × AppRecord)) (k : Nat) :
    lastAssoc ps k ≠ none ↔ k ∈ ps.map Prod.fst := by
  induction ps with
  | nil => simp [lastAssoc]
  | cons p rest ih =>
    obtain ⟨a, b⟩ := p
    simp only [lastAssoc, List.map_cons, List.mem_cons]
    cases h : lastAssoc rest k with
    | some w =>
      simp only [ne_eq, reduceCtorEq, not_false_eq_true, true_iff]
      right
      rw [← ih]
      simp [h]
    | none =>
      have hnotin : ¬ k ∈ List.map Prod.fst rest := by
        rw [← ih]
        simp [h]
      split_ifs with hak
      · simp [hak]
      · apply iff_of_false
        · simp
        · rintro (hc | hc)
          · exact hak hc.symm
          · exact hnotin hc

/-! ## Well-formed record chains -/

/-- `ChainR buf pos ps`: starting at `pos`, the buffer holds a sequence of
records that the loop body consumes without a short unpack read, without a
diverging marker scan, and without a `UnicodeDecodeError` (extracted name
and icon values, if present, are valid UTF-8), followed by the sentinel
`appid = 0`; `ps` lists the `(appid, decoded record)` pairs in stream
order. -/
inductive ChainR (buf : Buf) : Nat → List (Nat × AppRecord) → Prop where
  | nil : ∀ pos, readU32 buf pos = some (0, pos + 4) → ChainR buf pos []
  | cons : ∀ pos appid p2 r ps,
      readU32 buf pos = some (appid, pos + 4) → appid ≠ 0 →
      readRecordStep buf (pos + 4) appid = .record r p2 →
      ChainR buf p2 ps →
      ChainR buf pos ((appid, r) :: ps)

theorem decodeLoopF_chain {buf : Buf} :
    ∀ {pos ps}, ChainR buf pos ps → ∀ fuel acc, buf.length - pos < fuel →
      decodeLoopF fuel buf pos acc = .ok (dinsertAll acc ps) := by
  intro pos ps h
  induction h with
  | nil pos h0 =>
    intro fuel acc hf
    cases fuel with
    | zero => omega
    | succ f =>
      unfold decodeLoopF
      simp [h0, dinsertAll]
  | cons pos appid p2 r ps h1 hne h2 hch ih =>
    intro fuel acc hf
    cases fuel with
    | zero => omega
    | succ f =>
      unfold decodeLoopF
      have e1 := readU32_eq_some h1
      have e2 := readRecordStep_mono h2
      simp only [h1, if_neg hne, h2]
      exact ih f (dinsert acc appid r) (by omega)

theorem read_appinfo_of_chain (buf : Buf) (ps : List (Nat × AppRecord))
    (hmagic : buf.take 4 = magicBytes) (hlen : 16 ≤ buf.length)
    (hsto : stoOf buf + 20 ≤ buf.length) (hch : ChainR buf 16 ps) :
    read_appinfo buf = .ok (dinsertAll [] ps) := by
  have hm : readN buf 0 4 = (magicBytes, 4) := by
    unfold readN
    rw [List.drop_zero, hmagic]
    norm_num [magicBytes]
  have hsto4 : 16 + leVal ((buf.drop 8).take 8) + 4 ≤ buf.length := by
    unfold stoOf at hsto
    omega
  unfold read_appinfo
  simp only [hm, ne_eq, not_true_eq_false, if_false,
             readU32_of_le buf 4 (by omega), Nat.reduceAdd,
             readU64_of_le buf 8 (by omega),
             readU32_of_le buf (16 + leVal ((buf.drop 8).take 8)) hsto4]
  exact decodeLoopF_chain hch (buf.length + 1) [] (by omega)

/-! ## Claim theorems -/

/-- Header-only buffer whose record region is just the sentinel and whose
string-table offset is 0 (in bounds). -/
def c3bufA : Buf :=
  magicBytes ++ [0, 0, 0, 0] ++ [0, 0, 0, 0, 0, 0, 0, 0] ++ [0, 0, 0, 0]

/-- Same buffer with string-table offset 100, pointing past the end. -/
def c3bufB : Buf :=
  magicBytes ++ [0, 0, 0, 0] ++ [100, 0, 0, 0, 0, 0, 0, 0] ++ [0, 0, 0, 0]

/-- Claim C3 counterexample: two buffers identical except for `stringTableOffset`
(0 vs 100).  With offset 0 the decode returns a store; with the offset
pointing past the end it fails, because header parsing seeks to
`16 + stringTableOffset` and reads a 4-byte string count there.  So a
`stringTableOffset` past the end of the buffer does by itself make decode
fail, refuting the claim. -/
theorem c3_counterexample :
    read_appinfo c3bufA = .ok [] ∧ read_appinfo c3bufB = .err .unpackError := by
  constructor <;> decide

/-- Claim C3 (amended): the header phase reads magic, universe and
stringTableOffset and then dereferences the string-table location: it seeks
to `16 + stringTableOffset` and reads a 4-byte string count there before
seeking back.  Hence whenever `16 + stringTableOffset + 4` exceeds the
buffer length, the decode fails with the unpack (truncation-class) error. -/
theorem c3_amended (buf : Buf) (h1 : buf.take 4 = magicBytes)
    (h2 : 16 ≤ buf.length) (h3 : buf.length < stoOf buf + 20) :
    read_appinfo buf = .err .unpackError := by
  have hm : readN buf 0 4 = (magicBytes, 4) := by
    unfold readN
    rw [List.drop_zero, h1]
    norm_num [magicBytes]
  have hsto4 : ¬ (16 + leVal ((buf.drop 8).take 8) + 4 ≤ buf.length) := by
    unfold stoOf at h3
    omega
  unfold read_appinfo
  simp only [hm, ne_eq, not_true_eq_false, if_false,
             readU32_of_le buf 4 (by omega), Nat.reduceAdd,
             readU64_of_le buf 8 (by omega)]
  unfold readU32
  rw [if_neg hsto4]

theorem c3_amended_witness : read_appinfo c3bufB = .err .unpackError :=
  c3_amended c3bufB (by decide) (by decide) (by decide)

/-- Claim C4: a buffer whose first 4 bytes differ from `b")DV\x07"` makes decode
fail with the format-mismatch error (`SyntaxError`) and no store; a buffer
whose first 4 bytes equal the signature never fails with that error. -/
theorem c4_magic_gate (buf : Buf) :
    (buf.take 4 ≠ magicBytes → read_appinfo buf = .err .invalidMagic) ∧
    (buf.take 4 = magicBytes → read_appinfo buf ≠ .err .invalidMagic) := by
  have hm : readN buf 0 4 = (buf.take 4, 0 + (buf.take 4).length) := by
    unfold readN
    rw [List.drop_zero]
  constructor
  · intro h
    unfold read_appinfo
    simp only [hm, ne_eq]
    rw [if_pos h]
  · intro hmagic
    unfold read_appinfo
    simp only [hm, ne_eq, hmagic]
    rw [if_neg (by simp)]
    split
    · simp
    · split
      · simp
      · split
        · simp
        · exact decodeLoopF_ne_invalidMagic _ _ _

theorem c4_magic_gate_witness :
    read_appinfo [1, 2, 3, 4] = .err .invalidMagic ∧
    read_appinfo [41, 68, 86, 7] ≠ .err .invalidMagic :=
  ⟨(c4_magic_gate [1, 2, 3, 4]).1 (by decide),
   (c4_magic_gate [41, 68, 86, 7]).2 (by decide)⟩

/-- Buffer with valid magic, an empty record region (immediate sentinel),
but `stringTableOffset = 200` pointing past the end. -/
def c1cbuf : Buf :=
  magicBytes ++ [0, 0, 0, 0] ++ [200, 0, 0, 0, 0, 0, 0, 0] ++ [0, 0, 0, 0]

/-- Claim C1 counterexample: a buffer that is well-formed in the claim's sense
(valid magic; the record region is a chain of well-formed records — here
none — terminated by the sentinel appId 0; markers vacuously
zero-terminated), yet decode raises instead of returning a store, because
the header phase also reads a 4-byte string count at
`16 + stringTableOffset` and that offset points past the end here. -/
theorem c1_counterexample :
    c1cbuf.take 4 = magicBytes ∧ ChainR c1cbuf 16 [] ∧
    read_appinfo c1cbuf = .err .unpackError :=
  ⟨by decide, ChainR.nil 16 (by decide), by decide⟩

/-- Claim C1 (amended): for every buffer with valid magic and the string-count
read in bounds (`stringTableOffset + 20 ≤ length`), whose record region at
offset 16 is a chain of records consumable without a short read, without a
diverging marker scan and without a `UnicodeDecodeError` (name and icon
values valid UTF-8), terminated by the sentinel appId 0, decode returns the
store built by dict insertion; its key set is exactly the set of appIds
read before the sentinel, and a repeated appId maps to the record decoded
last (last-write-wins). -/
theorem c1_amended (buf : Buf) (ps : List (Nat × AppRecord))
    (hmagic : buf.take 4 = magicBytes) (hlen : 16 ≤ buf.length)
    (hsto : stoOf buf + 20 ≤ buf.length) (hch : ChainR buf 16 ps) :
    read_appinfo buf = .ok (dinsertAll [] ps) ∧
    (∀ k, dlookup (dinsertAll [] ps) k ≠ none ↔ k ∈ ps.map Prod.fst) ∧
    (∀ k v, lastAssoc ps k = some v → dlookup (dinsertAll [] ps) k = some v) := by
  refine ⟨read_appinfo_of_chain buf ps hmagic hlen hsto hch, ?_, ?_⟩
  · intro k
    rw [dlookup_dinsertAll ps [] k, ← lastAssoc_ne_none_iff ps k]
    cases h : lastAssoc ps k with
    | some w => simp [h]
    | none => simp [h, dlookup]
  · intro k v hv
    rw [dlookup_dinsertAll ps [] k, hv]

/-- One-record buffer: appId 440, declaredSize 67, all-zero metadata, the
payload `b"\x01\x04\x00\x00\x00A\x00"`, then the sentinel. -/
def c1wbuf : Buf :=
  magicBytes ++ [1, 0, 0, 0] ++ [0, 0, 0, 0, 0, 0, 0, 0] ++
  [184, 1, 0, 0] ++ [67, 0, 0, 0] ++ List.replicate 60 0 ++
  [1, 4, 0, 0, 0, 65, 0] ++ [0, 0, 0, 0]

/-- The record decoded from `c1wbuf`. -/
def c1wrec : AppRecord :=
  ⟨440, 0, 0, 0, List.replicate 20 0, 0, List.replicate 20 0,
   some [65], none, none, [1, 4, 0, 0, 0, 65, 0]⟩

theorem c1_amended_witness :
    read_appinfo c1wbuf = .ok (dinsertAll [] [(440, c1wrec)]) :=
  (c1_amended c1wbuf [(440, c1wrec)] (by decide) (by decide) (by decide)
    (ChainR.cons 16 440 91 c1wrec [] (by decide) (by decide) (by decide)
      (ChainR.nil 91 (by decide)))).1

/-- Buffer whose single record's payload holds a name marker with no zero
byte after it (declaredSize 66 is consistent with the buffer). -/
def c2cbuf : Buf :=
  magicBytes ++ [1, 0, 0, 0] ++ [0, 0, 0, 0, 0, 0, 0, 0] ++
  [1, 0, 0, 0] ++ [66, 0, 0, 0] ++ List.replicate 60 0 ++ [1, 4, 0, 0, 0, 65]

/-- Claim C2, evaluation at the failing input: on a payload where the name marker
occurs but no zero byte follows, the extraction scan diverges (the Python
while loop walks past the end of the bytes object forever), so the whole
decode fails to terminate instead of leaving the field absent and
continuing. -/
theorem c2_eval :
    extractName [1, 4, 0, 0, 0, 65] = none ∧
    read_appinfo c2cbuf = DecodeResult.hang := by
  constructor <;> decide

/-- Buffer whose record declares size 1000, extending past the buffer end;
the truncated payload that is actually read contains a name marker with no
zero terminator. -/
def c5cbuf : Buf :=
  magicBytes ++ [1, 0, 0, 0] ++ [0, 0, 0, 0, 0, 0, 0, 0] ++
  [1, 0, 0, 0] ++ [232, 3, 0, 0] ++ List.replicate 60 0 ++ [1, 4, 0, 0, 0, 65]

/-- Claim C5, evaluation at the failing input: a record whose declared size runs
past the buffer end does not always make decode fail with the truncation
error — when the short-read payload contains a marker without a zero
terminator, the decode diverges in the extraction scan instead of raising. -/
theorem c5_eval :
    read_appinfo c5cbuf = DecodeResult.hang ∧
    read_appinfo c5cbuf ≠ DecodeResult.err PyErr.unpackError := by
  constructor <;> decide

/-- Record frame with declaredSize 70 over an all-zero body. -/
def c8cbuf : Buf := [70, 0, 0, 0] ++ List.replicate 70 0

/-- The frame read from `c8cbuf` at position 0. -/
def c8frame : RawFrame :=
  ⟨70, 0, 0, 0, List.replicate 20 0, 0, List.replicate 20 0, List.replicate 10 0⟩

/-- Claim C8 counterexample: the fixed metadata fields consume 60 bytes, not 64:
with declaredSize 70 the payload read is 10 bytes long, whereas the claim's
`declaredSize - 64` would give 6. -/
theorem c8_counterexample :
    readRecordFrame c8cbuf 0 = some (c8frame, 74) ∧
    c8frame.binary_content.length = 10 ∧ (10 : Nat) ≠ 70 - 64 := by
  refine ⟨by decide, by decide, by decide⟩

/-- Claim C8 (amended): the fixed metadata fields read after declaredSize
(infoState, lastUpdated, the 8-byte token, a 20-byte digest, changeNumber,
a second 20-byte digest, in that order) consume a fixed 60 bytes, so for a
record whose declared extent fits the buffer the payload read next is
exactly declaredSize minus 60 bytes long. -/
theorem c8_amended (buf : Buf) (pos size : Nat)
    (h1 : readU32 buf pos = some (size, pos + 4)) (h2 : 60 ≤ size)
    (h3 : pos + 4 + size ≤ buf.length) :
    ∃ fr : RawFrame, readRecordFrame buf pos = some (fr, pos + 4 + size) ∧
      fr.binary_content.length = size - 60 := by
  refine ⟨_, readRecordFrame_spec buf pos size h1 h2 h3, ?_⟩
  simp only [List.length_take, List.length_drop]
  omega

theorem c8_amended_witness :
    ∃ fr : RawFrame, readRecordFrame ([61, 0, 0, 0] ++ List.replicate 61 0) 0 = some (fr, 65) ∧
      fr.binary_content.length = 1 :=
  c8_amended ([61, 0, 0, 0] ++ List.replicate 61 0) 0 61 (by decide) (by decide) (by decide)

/-- Claim C7 counterexample: the tag `"OwnersOnly"` belongs to the spec's closed
set, yet a payload carrying a type marker with that zero-terminated value
decodes to an absent itemType: the code compares against the lowercase
byte string `b"ownersonly"`. -/
theorem c7_counterexample :
    [79, 119, 110, 101, 114, 115, 79, 110, 108, 121] ∈ specTypeTags ∧
    extractType (typeMarker ++ [79, 119, 110, 101, 114, 115, 79, 110, 108, 121] ++ [0]) =
      some none := by
  constructor <;> decide

/-- Claim C7 (amended): for every payload containing a type marker whose first
occurrence is followed by a zero-terminated value `v`, the decoded itemType
is set (to `v`) iff `v` is one of the eight byte strings the code accepts:
{Game, DLC, Demo, Config, Beta, Tool, ownersonly, Application} — the
owners-only tag being lowercase; any other value (such as "Unknown" or the
spec's capitalized "OwnersOnly") leaves the field absent without an error. -/
theorem c7_amended (content : List Nat) (i : Nat) (v : List Nat)
    (hfind : findSub typeMarker content = some i)
    (hscan : scanZero content (i + 5) = some v) :
    (extractType content = some (some v) ↔ v ∈ typeTags) ∧
    (v ∉ typeTags → extractType content = some none) := by
  simp only [extractType, hfind, hscan]
  by_cases hv : v ∈ typeTags
  · simp [hv]
  · simp [hv]

theorem c7_amended_witness :
    extractType (typeMarker ++ [71, 97, 109, 101] ++ [0]) = some (some [71, 97, 109, 101]) :=
  (c7_amended (typeMarker ++ [71, 97, 109, 101] ++ [0]) 0 [71, 97, 109, 101]
    (by decide) (by decide)).1.mpr (by decide)

/-- Claim C9 counterexample: a payload consisting of the icon marker alone yields
a stored icon value of 0 bytes, not 40: the slice `[index : index + 40]` is
truncated at the payload end, so the stored iconChecksum is not always a
40-character string. -/
theorem c9_counterexample :
    extractIcon [1, 88, 1, 0, 0] = some [] ∧ ([] : List Nat).length ≠ 40 := by
  constructor <;> decide

/-- Claim C9 (amended): for every payload containing the icon marker, the decoded
iconChecksum is the up-to-40 bytes immediately after the first marker
occurrence (no terminator scan), truncated at the payload end: its length
is `min 40 (payload length - (marker index + 5))`, hence exactly 40 only
when at least 40 bytes follow the marker. -/
theorem c9_amended (content : List Nat) (i : Nat)
    (hfind : findSub iconMarker content = some i) :
    extractIcon content = some ((content.drop (i + 5)).take 40) ∧
    ((content.drop (i + 5)).take 40).length = min 40 (content.length - (i + 5)) := by
  constructor
  · simp only [extractIcon, hfind]
  · simp [List.length_take, List.length_drop]

theorem c9_amended_witness :
    extractIcon (iconMarker ++ List.replicate 40 1) =
      some (((iconMarker ++ List.replicate 40 1).drop 5).take 40) :=
  (c9_amended (iconMarker ++ List.replicate 40 1) 0 (by decide)).1

/-! ## Lemmas about `get_valid_file_name` -/

theorem mem_foldl_replaceForbidden (l : List Char) :
    ∀ (s : List Char) (x : Char), x ∈ l.foldl replaceForbidden s →
      x = ' ' ∨ (x ∈ s ∧ x ∉ l) := by
  induction l with
  | nil => intro s x hx; exact Or.inr ⟨hx, by simp⟩
  | cons c rest ih =>
    intro s x hx
    rcases ih (replaceForbidden s c) x hx with h | ⟨hmem, hnotin⟩
    · exact Or.inl h
    · unfold replaceForbidden at hmem
      split at hmem
      · rcases List.mem_map.mp hmem with ⟨y, hy, he⟩
        by_cases hyc : y = c
        · subst hyc
          rw [if_pos rfl] at he
          exact Or.inl he.symm
        · rw [if_neg hyc] at he
          subst he
          refine Or.inr ⟨hy, ?_⟩
          simp only [List.mem_cons, not_or]
          exact ⟨hyc, hnotin⟩
      · refine Or.inr ⟨hmem, ?_⟩
        simp only [List.mem_cons, not_or]
        refine ⟨?_, hnotin⟩
        intro hxc
        subst hxc
        exact absurd hmem (by assumption)

theorem foldl_replaceForbidden_clean (s : List Char) (c : Char)
    (hc : c ∈ forbidden_chars) : c ∉ forbidden_chars.foldl replaceForbidden s := by
  intro hmem
  rcases mem_foldl_replaceForbidden forbidden_chars s c hmem with h | ⟨_, hnotin⟩
  · subst h
    exact absurd hc (by decide)
  · exact hnotin hc

theorem foldl_replaceForbidden_id (l : List Char) :
    ∀ t : List Char, (∀ c ∈ l, c ∉ t) → l.foldl replaceForbidden t = t := by
  induction l with
  | nil => intro t _; rfl
  | cons c rest ih =>
    intro t h
    have hc : c ∉ t := h c (by simp)
    show List.foldl replaceForbidden (replaceForbidden t c) rest = t
    rw [show replaceForbidden t c = t from by unfold replaceForbidden; rw [if_neg hc]]
    exact ih t (fun d hd => h d (by simp [hd]))

theorem stripLeadingSpaces_head (s : List Char) :
    (stripLeadingSpaces s).head? ≠ some ' ' := by
  induction s with
  | nil => simp [stripLeadingSpaces]
  | cons c rest ih =>
    unfold stripLeadingSpaces
    split
    · exact ih
    next h => simpa using h

theorem stripLeadingSpaces_mem (s : List Char) (x : Char) :
    x ∈ stripLeadingSpaces s → x ∈ s := by
  induction s with
  | nil => simp [stripLeadingSpaces]
  | cons c rest ih =>
    unfold stripLeadingSpaces
    split
    · intro hx
      exact List.mem_cons_of_mem c (ih hx)
    · exact fun h => h

theorem stripLeadingSpaces_of_head (s : List Char) (h : s.head? ≠ some ' ') :
    stripLeadingSpaces s = s := by
  cases s with
  | nil => rfl
  | cons c rest =>
    unfold stripLeadingSpaces
    rw [if_neg]
    intro hc
    exact h (by simp [hc])

theorem stripLeadingSpaces_drop (s : List Char) :
    ∃ n, stripLeadingSpaces s = s.drop n := by
  induction s with
  | nil => exact ⟨0, rfl⟩
  | cons c rest ih =>
    unfold stripLeadingSpaces
    split
    · obtain ⟨n, hn⟩ := ih
      exact ⟨n + 1, by simpa using hn⟩
    · exact ⟨0, rfl⟩

theorem stripTrailingSpaces_take (s : List Char) :
    ∃ m, stripTrailingSpaces s = s.take m := by
  obtain ⟨n, hn⟩ := stripLeadingSpaces_drop s.reverse
  refine ⟨s.length - n, ?_⟩
  unfold stripTrailingSpaces
  rw [hn, List.drop_reverse, List.reverse_reverse]

theorem head?_take (s : List Char) (m : Nat) :
    (s.take m).head? = none ∨ (s.take m).head? = s.head? := by
  cases m with
  | zero => exact Or.inl rfl
  | succ k =>
    cases s with
    | nil => exact Or.inl rfl
    | cons c rest => exact Or.inr rfl

theorem stripTrailingSpaces_mem (s : List Char) (x : Char) :
    x ∈ stripTrailingSpaces s → x ∈ s := by
  intro hx
  unfold stripTrailingSpaces at hx
  rw [List.mem_reverse] at hx
  have := stripLeadingSpaces_mem s.reverse x hx
  rwa [List.mem_reverse] at this

theorem stripTrailingSpaces_getLast (s : List Char) :
    (stripTrailingSpaces s).getLast? ≠ some ' ' := by
  unfold stripTrailingSpaces
  rw [← List.head?_reverse, List.reverse_reverse]
  exact stripLeadingSpaces_head s.reverse

theorem stripTrailingSpaces_of_getLast (s : List Char) (h : s.getLast? ≠ some ' ') :
    stripTrailingSpaces s = s := by
  unfold stripTrailingSpaces
  rw [stripLeadingSpaces_of_head s.reverse (by rwa [List.head?_reverse]), List.reverse_reverse]

theorem get_valid_file_name_fixed (t : List Char)
    (h1 : ∀ c ∈ forbidden_chars, c ∉ t)
    (h2 : t.head? ≠ some ' ') (h3 : t.getLast? ≠ some ' ') :
    get_valid_file_name t = t := by
  unfold get_valid_file_name
  rw [foldl_replaceForbidden_id forbidden_chars t h1,
      stripLeadingSpaces_of_head t h2,
      stripTrailingSpaces_of_getLast t h3]

/-- Claim C10: for every input string, the filename returned by
`get_valid_file_name` contains none of the characters
`/ \ : * ? " < > |`, neither starts nor ends with a space, and the
function is idempotent. -/
theorem c10_get_valid_file_name (s : List Char) :
    (∀ c ∈ forbidden_chars, c ∉ get_valid_file_name s) ∧
    (get_valid_file_name s).head? ≠ some ' ' ∧
    (get_valid_file_name s).getLast? ≠ some ' ' ∧
    get_valid_file_name (get_valid_file_name s) = get_valid_file_name s := by
  have hclean : ∀ c ∈ forbidden_chars, c ∉ get_valid_file_name s := by
    intro c hc hmem
    unfold get_valid_file_name at hmem
    have h1 := stripTrailingSpaces_mem _ c hmem
    have h2 := stripLeadingSpaces_mem _ c h1
    exact foldl_replaceForbidden_clean s c hc h2
  have hhead : (get_valid_file_name s).head? ≠ some ' ' := by
    unfold get_valid_file_name
    obtain ⟨m, hm⟩ :=
      stripTrailingSpaces_take (stripLeadingSpaces (forbidden_chars.foldl replaceForbidden s))
    rw [hm]
    rcases head?_take (stripLeadingSpaces (forbidden_chars.foldl replaceForbidden s)) m with h | h
    · rw [h]
      simp
    · rw [h]
      exact stripLeadingSpaces_head _
  have hlast : (get_valid_file_name s).getLast? ≠ some ' ' :=
    stripTrailingSpaces_getLast _
  exact ⟨hclean, hhead, hlast, get_valid_file_name_fixed _ hclean hhead hlast⟩

theorem c10_witness : '/' ∉ get_valid_file_name [' ', '/', 'a'] :=
  (c10_get_valid_file_name [' ', '/', 'a']).1 '/' (by decide)
